import Mathlib

/-!
A shallow embedding of the `crude_cache` Rust crate: a sharded, TTL-based,
concurrency-safe in-process cache.

The repository contains two revisions of the cache facade:

* `src/lib.rs` (`CrudeCache` over `Item = (Instant, Box<dyn Any>)`): its `get`
  checks expiry before downcasting, and its private `update` re-checks the
  shard under the write lock before invoking the compute callback.
* `src/crude_cache.rs` (`CrudeCache` over boxed `Item<V> { instant, value }`):
  its `get` downcasts first (via `ShardedMap::get`) and only then checks
  expiry, and its private `update_atomic` performs no re-check under the
  write lock.

Both are embedded here, over one store type, in namespaces `Lib` and `Crude`.

Modelling conventions:
* `Instant` and `Duration` are `Nat` (absolute ticks / tick counts).
* Rust panics (failed `assert!`, modulo by zero, out-of-bounds indexing,
  a panicking compute callback) are `Except.error msg`.
* `Box<dyn Any + Send + Sync>` is `Dyn`: a tag for the stored concrete type
  plus a value of the denoted type; `downcast_ref::<T>` succeeds exactly when
  the stored tag equals the requested one.
* Each shard's `HashMap<String, _>` is an association list whose keys are
  pairwise distinct (the `ShardWF` invariant, established by construction).
* The caller-supplied asynchronous compute callback is represented by its
  observed outcome `fres : Except String V` (a value, or a panic) together
  with the instant `tdone` at which it completes; a cache operation "invokes"
  the callback exactly when its result depends on `fres`.
* Time points are passed explicitly: an operation that reads the clock twice
  (e.g. a plain `get` followed by a re-check under the write lock) receives
  the two instants as separate arguments.
-/

/-- Tags for the concrete Rust types stored behind `dyn Any`. A small closed
universe of the value types appearing in the repository's code and tests. -/
inductive TyTag : Type
  | nat
  | str
  | listNat
  | boolean
  deriving DecidableEq

/-- The Lean type denoted by a tag. -/
@[reducible] def TyTag.denote : TyTag → Type
  | .nat => Nat
  | .str => String
  | .listNat => List Nat
  | .boolean => Bool

/-- `std::any::type_name` of the denoted Rust type, as printed in the panic
messages of the source. -/
def TyTag.typeName : TyTag → String
  | .nat => "usize"
  | .str => "&str"
  | .listNat => "alloc::vec::Vec<usize>"
  | .boolean => "bool"

/-- A type-erased value: models `Box<dyn Any + Send + Sync>`, which remembers
the concrete type of its contents and supports checked downcasts. -/
structure Dyn : Type where
  tag : TyTag
  val : tag.denote

/-- A stored cache entry: the absolute expiry instant paired with the
type-erased value.  In the `lib.rs` revision this is literally the map value
`(Instant, Box<dyn Any>)`; in the `crude_cache.rs` revision the boxed value is
the whole `Item<V> { instant, value }`, which erases to the same data. -/
abbrev Entry : Type := Nat × Dyn

/-- Association-list lookup: models `HashMap::get` on a shard. -/
def alistLookup {β : Type} : List (String × β) → String → Option β
  | [], _ => none
  | (k', v) :: rest, k => if k' = k then some v else alistLookup rest k

/-- Association-list insert-or-replace: models `HashMap::insert` on a shard. -/
def alistInsert {β : Type} : List (String × β) → String → β → List (String × β)
  | [], k, v => [(k, v)]
  | (k', v') :: rest, k, v =>
      if k' = k then (k, v) :: rest else (k', v') :: alistInsert rest k v

/-- Association-list removal: models `HashMap::remove(..).is_some()` on a
shard; returns the remaining list and whether an entry for the key existed. -/
def alistRemove {β : Type} : List (String × β) → String → List (String × β) × Bool
  | [], _ => ([], false)
  | (k', v') :: rest, k =>
      if k' = k then (rest, true)
      else
        let r := alistRemove rest k
        ((k', v') :: r.1, r.2)

/-- The sharded map: a fixed number of shards, each an independently locked
`HashMap<String, β>` (`src/sharded_map.rs`, `struct ShardedMap`). -/
structure ShardedMap (β : Type) : Type where
  numShards : Nat
  shards : List (List (String × β))

/-- The panic message Rust produces for `x % 0` on integers. -/
def divZeroMsg : String := "attempt to calculate the remainder with a divisor of zero"

/-- The panic message for indexing `self.shards[index]` out of bounds. -/
def oobMsg : String := "index out of bounds"

/-- Stand-in pure model of `std::collections::hash_map::DefaultHasher`
(`key.hash(&mut hash); hash.finish()`).  The hasher itself is standard-library
code, not part of this repository; the spec only requires a deterministic pure
function of the key producing a 64-bit result, which any fixed function
models. -/
def strHash (s : String) : Nat :=
  s.data.foldl (fun h c => (h * 31 + c.toNat) % 18446744073709551616) 5381

/-- `ShardedMap::new(num_shards)`: allocate `num_shards` empty shards.  Note
that no positivity check is performed on `num_shards`. -/
def ShardedMap.new (β : Type) (numShards : Nat) : ShardedMap β :=
  { numShards := numShards, shards := List.replicate numShards [] }

/-- `ShardedMap::get_shard`: hash the key, reduce modulo `num_shards`, and
index into `shards`.  With `num_shards = 0` the modulo panics; an index past
the end of `shards` (impossible for a store built by `new`) panics at
`&self.shards[index]`. -/
def ShardedMap.getShard {β : Type} (m : ShardedMap β) (k : String) : Except String Nat :=
  if m.numShards = 0 then .error divZeroMsg
  else if strHash k % m.numShards < m.shards.length then .ok (strHash k % m.numShards)
  else .error oobMsg

/-- `ShardedMap::insert` (also `insert_with_lock` reached through
`get_write_lock`): route to the shard, take its write lock, and
insert-or-replace the entry.  Returns the evolved store and the outcome. -/
def ShardedMap.insert {β : Type} (m : ShardedMap β) (k : String) (v : β) :
    ShardedMap β × Except String Unit :=
  match m.getShard k with
  | .error e => (m, .error e)
  | .ok i =>
      ({ m with shards := m.shards.set i (alistInsert (m.shards.getD i []) k v) },
       .ok ())

/-- `ShardedMap::remove`: route to the shard, take its write lock, delete the
entry if present, and report whether one existed. -/
def ShardedMap.remove {β : Type} (m : ShardedMap β) (k : String) :
    ShardedMap β × Except String Bool :=
  match m.getShard k with
  | .error e => (m, .error e)
  | .ok i =>
      let r := alistRemove (m.shards.getD i []) k
      ({ m with shards := m.shards.set i r.1 }, .ok r.2)

/-- The store underlying both cache revisions. -/
abbrev Store : Type := ShardedMap Entry

/-- The `assert!` message of `ShardedMap::get` / `CrudeCache::get` /
`CrudeCache::update`, with the format arguments substituted. -/
def mismatchMsg (op : String) (k : String) (tyName : String) : String :=
  "CrudeCache " ++ op ++ ": keys '" ++ k ++ "' value is not type: \"" ++ tyName ++ "\""

/-- The panic message of the `crude_cache.rs` revision's `get`: the downcast
target there is the whole `Item<V>`. -/
def crudeGetMsg (k : String) (t : TyTag) : String :=
  mismatchMsg "get" k ("crude_cache::crude_cache::Item<" ++ t.typeName ++ ">")

/-- The panic message of the `lib.rs` revision's `get`. -/
def libGetMsg (k : String) (t : TyTag) : String :=
  mismatchMsg "get" k t.typeName

/-- The panic message of the `lib.rs` revision's `update`. -/
def libUpdateMsg (k : String) (t : TyTag) : String :=
  mismatchMsg "update" k t.typeName

/-- `ShardedMap::get::<Item<T>>` (`src/sharded_map.rs`): take the shard's read
lock, look the key up, and downcast the boxed value, asserting (panicking)
when the stored concrete type differs from the requested one. -/
def ShardedMap.get (m : Store) (k : String) (t : TyTag) :
    Except String (Option (Nat × t.denote)) :=
  match m.getShard k with
  | .error e => .error e
  | .ok i =>
      match alistLookup (m.shards.getD i []) k with
      | none => .ok none
      | some (instant, d) =>
          if h : d.tag = t then .ok (some (instant, h ▸ d.val))
          else .error (crudeGetMsg k t)

/-- `force_insert` (identical in both revisions): compute
`expires_at = now + ttl` and unconditionally overwrite via the store's
`insert`, regardless of any existing entry's remaining ttl. -/
def force_insert (m : Store) (now : Nat) (k : String) (t : TyTag) (v : t.denote)
    (ttl : Nat) : Store × Except String Unit :=
  ShardedMap.insert m k (now + ttl, ⟨t, v⟩)

/-- `crude_cache.rs` `CrudeCache::get`: call `ShardedMap::get` (which
downcasts, panicking on a type mismatch even for an expired entry) and then
return `None` when `item.instant < now`.  Note the strict comparison: an entry
whose expiry instant equals `now` is still returned.  Performs no mutation;
the store component of the result is the input store. -/
def Crude.get (m : Store) (now : Nat) (k : String) (t : TyTag) :
    Store × Except String (Option t.denote) :=
  (m, match ShardedMap.get m k t with
      | .error e => .error e
      | .ok none => .ok none
      | .ok (some (instant, v)) => if instant < now then .ok none else .ok (some v))

/-- `crude_cache.rs` `CrudeCache::update_atomic`: acquire the shard's write
lock, invoke the compute callback while holding it (with NO re-check of the
store), then insert the result with `expires_at = tdone + ttl` and return it.
A panic of the callback propagates before anything is written. -/
def Crude.update_atomic (m : Store) (k : String) (ttl : Nat) (t : TyTag)
    (fres : Except String t.denote) (tdone : Nat) : Store × Except String t.denote :=
  match m.getShard k with
  | .error e => (m, .error e)
  | .ok i =>
      match fres with
      | .error e => (m, .error e)
      | .ok v =>
          let s' := alistInsert (m.shards.getD i []) k (tdone + ttl, ⟨t, v⟩)
          ({ m with shards := m.shards.set i s' }, .ok v)

/-- `crude_cache.rs` `CrudeCache::get_or_else_update`: plain `get` at `now`;
on a hit return the cached value, otherwise fall through to `update_atomic`. -/
def Crude.get_or_else_update (m : Store) (now : Nat) (k : String) (ttl : Nat)
    (t : TyTag) (fres : Except String t.denote) (tdone : Nat) :
    Store × Except String t.denote :=
  match (Crude.get m now k t).2 with
  | .error e => (m, .error e)
  | .ok (some v) => (m, .ok v)
  | .ok none => Crude.update_atomic m k ttl t fres tdone

/-- `crude_cache.rs` `CrudeCache::remove`: delegates to `ShardedMap::remove`. -/
def Crude.remove (m : Store) (k : String) : Store × Except String Bool :=
  ShardedMap.remove m k

/-- `lib.rs` `CrudeCache::get`: take the shard's read lock, look the key up;
a present entry with `instant > now` is downcast (panicking on a type
mismatch) and returned; an expired or absent entry yields `None` WITHOUT any
downcast.  Performs no mutation. -/
def Lib.get (m : Store) (now : Nat) (k : String) (t : TyTag) :
    Store × Except String (Option t.denote) :=
  (m, match m.getShard k with
      | .error e => .error e
      | .ok i =>
          match alistLookup (m.shards.getD i []) k with
          | some (instant, d) =>
              if now < instant then
                if h : d.tag = t then .ok (some (h ▸ d.val))
                else .error (libGetMsg k t)
              else .ok none
          | none => .ok none)

/-- The `Some(_) | None` arm of `lib.rs` `update`: invoke the compute callback
(its panic propagating, with nothing written), then insert the result into the
still-locked shard `i` with `expires_at = tdone + ttl`. -/
def Lib.updateMiss (m : Store) (i : Nat) (k : String) (ttl : Nat) (t : TyTag)
    (fres : Except String t.denote) (tdone : Nat) : Store × Except String t.denote :=
  match fres with
  | .error e => (m, .error e)
  | .ok v =>
      let s' := alistInsert (m.shards.getD i []) k (tdone + ttl, ⟨t, v⟩)
      ({ m with shards := m.shards.set i s' }, .ok v)

/-- `lib.rs` `CrudeCache::update`: acquire the shard's write lock and, while
holding it, RE-CHECK the shard at instant `nowc`; a fresh entry is downcast
(panicking on a mismatch) and returned without invoking the compute callback;
otherwise the miss arm computes and inserts. -/
def Lib.update (m : Store) (nowc : Nat) (k : String) (ttl : Nat) (t : TyTag)
    (fres : Except String t.denote) (tdone : Nat) : Store × Except String t.denote :=
  match m.getShard k with
  | .error e => (m, .error e)
  | .ok i =>
      match alistLookup (m.shards.getD i []) k with
      | some (instant, d) =>
          if nowc < instant then
            if h : d.tag = t then (m, .ok (h ▸ d.val))
            else (m, .error (libUpdateMsg k t))
          else Lib.updateMiss m i k ttl t fres tdone
      | none => Lib.updateMiss m i k ttl t fres tdone

/-- `lib.rs` `CrudeCache::get_or_else_update`: plain `get` at `now1`; on a hit
return the cached value, otherwise call `update`, whose re-check happens at
the later instant `now2` (the clock is read again under the write lock). -/
def Lib.get_or_else_update (m : Store) (now1 now2 : Nat) (k : String) (ttl : Nat)
    (t : TyTag) (fres : Except String t.denote) (tdone : Nat) :
    Store × Except String t.denote :=
  match (Lib.get m now1 k t).2 with
  | .error e => (m, .error e)
  | .ok (some v) => (m, .ok v)
  | .ok none => Lib.update m now2 k ttl t fres tdone

/-- Direct lookup of the raw entry stored for a key (routing by hash, ignoring
expiry): the specification-level view of the store's contents. -/
def storeLookup (m : Store) (k : String) : Option Entry :=
  alistLookup (m.shards.getD (strHash k % m.numShards) []) k

/-- A shard's keys are pairwise distinct (true of any `HashMap`). -/
def ShardWF {β : Type} (s : List (String × β)) : Prop :=
  s.Pairwise (fun a b => a.1 ≠ b.1)

/-- Well-formedness of a store: as established by `ShardedMap::new` with a
positive shard count, the shard vector has exactly `numShards` entries and
every shard has pairwise-distinct keys. -/
def WF (m : Store) : Prop :=
  m.shards.length = m.numShards ∧ 0 < m.numShards ∧ ∀ s ∈ m.shards, ShardWF s

/-! ## Association-list lemmas -/

theorem alistLookup_insert_self {β : Type} (l : List (String × β)) (k : String) (v : β) :
    alistLookup (alistInsert l k v) k = some v := by
  induction l with
  | nil => simp [alistInsert, alistLookup]
  | cons p rest ih =>
      obtain ⟨k', v'⟩ := p
      by_cases h : k' = k
      · simp [alistInsert, alistLookup, h]
      · simp [alistInsert, alistLookup, h, ih]

theorem alistLookup_eq_none_of_forall {β : Type} (l : List (String × β)) (k : String)
    (h : ∀ p ∈ l, p.1 ≠ k) : alistLookup l k = none := by
  induction l with
  | nil => rfl
  | cons p rest ih =>
      obtain ⟨k', v'⟩ := p
      have hk : k' ≠ k := h (k', v') (by simp)
      simp only [alistLookup, if_neg hk]
      exact ih fun p hp => h p (by simp [hp])

theorem alistRemove_snd {β : Type} (l : List (String × β)) (k : String) :
    (alistRemove l k).2 = (alistLookup l k).isSome := by
  induction l with
  | nil => rfl
  | cons p rest ih =>
      obtain ⟨k', v'⟩ := p
      by_cases h : k' = k
      · simp [alistRemove, alistLookup, h]
      · simp [alistRemove, alistLookup, h, ih]

theorem mem_alistRemove {β : Type} (l : List (String × β)) (k : String) (p : String × β)
    (hp : p ∈ (alistRemove l k).1) : p ∈ l := by
  induction l with
  | nil => simp [alistRemove] at hp
  | cons q rest ih =>
      obtain ⟨k', v'⟩ := q
      by_cases h : k' = k
      · simp only [alistRemove, if_pos h] at hp
        exact List.mem_cons_of_mem _ hp
      · simp only [alistRemove, if_neg h, List.mem_cons] at hp
        rcases hp with hp | hp
        · exact hp ▸ List.mem_cons_self _ _
        · exact List.mem_cons_of_mem _ (ih hp)

theorem alistLookup_remove_self {β : Type} (l : List (String × β)) (k : String)
    (hwf : ShardWF l) : alistLookup (alistRemove l k).1 k = none := by
  induction l with
  | nil => rfl
  | cons p rest ih =>
      obtain ⟨k', v'⟩ := p
      rw [ShardWF, List.pairwise_cons] at hwf
      by_cases h : k' = k
      · simp only [alistRemove, if_pos h]
        exact alistLookup_eq_none_of_forall rest k fun q hq => h ▸ (hwf.1 q hq).symm
      · simp only [alistRemove, if_neg h, alistLookup, if_neg h]
        exact ih hwf.2

theorem mem_alistInsert {β : Type} (l : List (String × β)) (k : String) (v : β)
    (p : String × β) (hp : p ∈ alistInsert l k v) : p ∈ l ∨ p = (k, v) := by
  induction l with
  | nil =>
      right
      simpa [alistInsert] using hp
  | cons q rest ih =>
      obtain ⟨k', v'⟩ := q
      by_cases h : k' = k
      · simp only [alistInsert, if_pos h, List.mem_cons] at hp
        rcases hp with hp | hp
        · exact Or.inr hp
        · exact Or.inl (List.mem_cons_of_mem _ hp)
      · simp only [alistInsert, if_neg h, List.mem_cons] at hp
        rcases hp with hp | hp
        · exact Or.inl (hp ▸ List.mem_cons_self _ _)
        · rcases ih hp with h2 | h2
          · exact Or.inl (List.mem_cons_of_mem _ h2)
          · exact Or.inr h2

theorem ShardWF_insert {β : Type} (l : List (String × β)) (k : String) (v : β)
    (hwf : ShardWF l) : ShardWF (alistInsert l k v) := by
  induction l with
  | nil => simp [alistInsert, ShardWF]
  | cons p rest ih =>
      obtain ⟨k', v'⟩ := p
      rw [ShardWF, List.pairwise_cons] at hwf
      by_cases h : k' = k
      · rw [ShardWF]
        simp only [alistInsert, if_pos h]
        rw [List.pairwise_cons]
        exact ⟨fun q hq => h ▸ hwf.1 q hq, hwf.2⟩
      · rw [ShardWF]
        simp only [alistInsert, if_neg h]
        rw [List.pairwise_cons]
        refine ⟨fun q hq => ?_, ih hwf.2⟩
        rcases mem_alistInsert rest k v q hq with h2 | h2
        · exact hwf.1 q h2
        · simpa [h2] using h

/-! ## List `set`/`getD` lemmas -/

theorem getD_set_self {α : Type} (l : List α) (i : Nat) (x d : α) (h : i < l.length) :
    (l.set i x).getD i d = x := by
  induction l generalizing i with
  | nil => simp at h
  | cons a rest ih =>
      cases i with
      | zero => simp [List.set, List.getD]
      | succ j =>
          simp only [List.set, List.getD_cons_succ]
          exact ih j (by simpa using h)

theorem getD_set_ne {α : Type} (l : List α) (i j : Nat) (x : α) (d : α) (h : j ≠ i) :
    (l.set i x).getD j d = l.getD j d := by
  induction l generalizing i j with
  | nil => simp [List.set]
  | cons a rest ih =>
      cases i with
      | zero =>
          cases j with
          | zero => exact absurd rfl h
          | succ j' => simp [List.set]
      | succ i' =>
          cases j with
          | zero => simp [List.set]
          | succ j' =>
              simp only [List.set, List.getD_cons_succ]
              exact ih i' j' fun hh => h (by simp [hh])

theorem getD_eq_getElem {α : Type} (l : List α) (i : Nat) (d : α) (h : i < l.length) :
    l.getD i d = l[i] := by
  simp [List.getD, List.getElem?_eq_getElem h]

/-! ## Routing and well-formedness lemmas -/

theorem getShard_wf {β : Type} (m : ShardedMap β) (k : String) (h0 : 0 < m.numShards)
    (hlen : m.numShards ≤ m.shards.length) :
    m.getShard k = .ok (strHash k % m.numShards) := by
  unfold ShardedMap.getShard
  rw [if_neg (Nat.pos_iff_ne_zero.mp h0),
      if_pos (lt_of_lt_of_le (Nat.mod_lt _ h0) hlen)]

theorem WF.len_eq {m : Store} (h : WF m) : m.shards.length = m.numShards := h.1

theorem WF.pos {m : Store} (h : WF m) : 0 < m.numShards := h.2.1

theorem WF.shard {m : Store} (h : WF m) : ∀ s ∈ m.shards, ShardWF s := h.2.2

theorem WF.getShard_eq {m : Store} (h : WF m) (k : String) :
    m.getShard k = .ok (strHash k % m.numShards) :=
  getShard_wf m k h.pos (le_of_eq h.len_eq.symm)

theorem WF.idx_lt {m : Store} (h : WF m) (k : String) :
    strHash k % m.numShards < m.shards.length :=
  lt_of_lt_of_le (Nat.mod_lt _ h.pos) (le_of_eq h.len_eq.symm)

theorem WF.shardWF_getD {m : Store} (h : WF m) (k : String) :
    ShardWF (m.shards.getD (strHash k % m.numShards) []) := by
  rw [getD_eq_getElem _ _ _ (h.idx_lt k)]
  exact h.shard _ (List.getElem_mem _)

theorem WF_new (n : Nat) (h : 0 < n) : WF (ShardedMap.new Entry n) := by
  refine ⟨by simp [ShardedMap.new], by simpa [ShardedMap.new] using h, ?_⟩
  intro s hs
  rw [ShardedMap.new] at hs
  simp only [List.mem_replicate] at hs
  rw [hs.2]
  simp [ShardWF]

theorem WF_set_shard (m : Store) (k : String) (s' : List (String × Entry))
    (hwf : WF m) (hs' : ShardWF s') :
    WF { m with shards := m.shards.set (strHash k % m.numShards) s' } := by
  refine ⟨by simpa using hwf.len_eq, hwf.pos, ?_⟩
  intro s hs
  rcases List.mem_or_eq_of_mem_set hs with h2 | h2
  · exact hwf.shard s h2
  · exact h2 ▸ hs'

theorem alistRemove_sublist {β : Type} (l : List (String × β)) (k : String) :
    (alistRemove l k).1.Sublist l := by
  induction l with
  | nil => simp [alistRemove]
  | cons p rest ih =>
      obtain ⟨k', v'⟩ := p
      by_cases h : k' = k
      · simp only [alistRemove, if_pos h]
        exact (List.Sublist.refl rest).cons _
      · simp only [alistRemove, if_neg h]
        exact ih.cons₂ _

theorem ShardWF_remove {β : Type} (l : List (String × β)) (k : String)
    (hwf : ShardWF l) : ShardWF (alistRemove l k).1 :=
  List.Pairwise.sublist (alistRemove_sublist l k) hwf

/-! ## Closed forms of the store operations under well-formedness -/

/-- The store obtained by replacing the shard to which `k` routes. -/
def setShard (m : Store) (k : String) (s' : List (String × Entry)) : Store :=
  { m with shards := m.shards.set (strHash k % m.numShards) s' }

/-- The shard to which `k` routes. -/
def shardOf (m : Store) (k : String) : List (String × Entry) :=
  m.shards.getD (strHash k % m.numShards) []

theorem WF_setShard (m : Store) (k : String) (s' : List (String × Entry))
    (hwf : WF m) (hs' : ShardWF s') : WF (setShard m k s') :=
  WF_set_shard m k s' hwf hs'

theorem ShardedMap.insert_eq (m : Store) (k : String) (v : Entry) (hwf : WF m) :
    ShardedMap.insert m k v = (setShard m k (alistInsert (shardOf m k) k v), .ok ()) := by
  unfold ShardedMap.insert setShard shardOf
  rw [hwf.getShard_eq k]

theorem ShardedMap.remove_eq (m : Store) (k : String) (hwf : WF m) :
    ShardedMap.remove m k =
      (setShard m k (alistRemove (shardOf m k) k).1, .ok (alistRemove (shardOf m k) k).2) := by
  unfold ShardedMap.remove setShard shardOf
  rw [hwf.getShard_eq k]

theorem WF_insert (m : Store) (k : String) (v : Entry) (hwf : WF m) :
    WF (ShardedMap.insert m k v).1 := by
  rw [ShardedMap.insert_eq m k v hwf]
  exact WF_setShard m k _ hwf (ShardWF_insert _ _ _ (hwf.shardWF_getD k))

theorem WF_remove (m : Store) (k : String) (hwf : WF m) :
    WF (ShardedMap.remove m k).1 := by
  rw [ShardedMap.remove_eq m k hwf]
  exact WF_setShard m k _ hwf (ShardWF_remove _ _ (hwf.shardWF_getD k))

theorem storeLookup_setShard_self (m : Store) (k : String)
    (s' : List (String × Entry)) (hwf : WF m) :
    storeLookup (setShard m k s') k = alistLookup s' k := by
  unfold storeLookup setShard
  rw [getD_set_self _ _ _ _ (hwf.idx_lt k)]

theorem storeLookup_insert_self (m : Store) (k : String) (v : Entry) (hwf : WF m) :
    storeLookup (ShardedMap.insert m k v).1 k = some v := by
  rw [ShardedMap.insert_eq m k v hwf]
  rw [storeLookup_setShard_self m k _ hwf]
  exact alistLookup_insert_self _ _ _

theorem storeLookup_remove_self (m : Store) (k : String) (hwf : WF m) :
    storeLookup (ShardedMap.remove m k).1 k = none := by
  rw [ShardedMap.remove_eq m k hwf]
  rw [storeLookup_setShard_self m k _ hwf]
  exact alistLookup_remove_self _ _ (hwf.shardWF_getD k)

theorem smGet_of_lookup (m : Store) (k : String) (t : TyTag) (instant : Nat)
    (d : Dyn) (hwf : WF m) (hlk : storeLookup m k = some (instant, d)) :
    ShardedMap.get m k t =
      if h : d.tag = t then .ok (some (instant, h ▸ d.val))
      else .error (crudeGetMsg k t) := by
  rw [storeLookup] at hlk
  unfold ShardedMap.get
  simp only [hwf.getShard_eq k, hlk]

theorem smGet_of_none (m : Store) (k : String) (t : TyTag) (hwf : WF m)
    (hlk : storeLookup m k = none) : ShardedMap.get m k t = .ok none := by
  rw [storeLookup] at hlk
  unfold ShardedMap.get
  simp only [hwf.getShard_eq k, hlk]

/-! ## Closed forms of the cache operations -/

theorem crudeGet_of_lookup (m : Store) (now : Nat) (k : String) (t : TyTag)
    (instant : Nat) (d : Dyn) (hwf : WF m)
    (hlk : storeLookup m k = some (instant, d)) :
    Crude.get m now k t =
      (m, if h : d.tag = t then
            (if instant < now then .ok none else .ok (some (h ▸ d.val)))
          else .error (crudeGetMsg k t)) := by
  unfold Crude.get
  rw [smGet_of_lookup m k t instant d hwf hlk]
  by_cases h : d.tag = t
  · rw [dif_pos h, dif_pos h]
  · rw [dif_neg h, dif_neg h]

theorem crudeGet_of_none (m : Store) (now : Nat) (k : String) (t : TyTag)
    (hwf : WF m) (hlk : storeLookup m k = none) :
    Crude.get m now k t = (m, .ok none) := by
  unfold Crude.get
  rw [smGet_of_none m k t hwf hlk]

theorem libGet_of_lookup (m : Store) (now : Nat) (k : String) (t : TyTag)
    (instant : Nat) (d : Dyn) (hwf : WF m)
    (hlk : storeLookup m k = some (instant, d)) :
    Lib.get m now k t =
      (m, if now < instant then
            (if h : d.tag = t then .ok (some (h ▸ d.val)) else .error (libGetMsg k t))
          else .ok none) := by
  rw [storeLookup] at hlk
  unfold Lib.get
  simp only [hwf.getShard_eq k, hlk]

theorem libGet_of_none (m : Store) (now : Nat) (k : String) (t : TyTag)
    (hwf : WF m) (hlk : storeLookup m k = none) :
    Lib.get m now k t = (m, .ok none) := by
  rw [storeLookup] at hlk
  unfold Lib.get
  simp only [hwf.getShard_eq k, hlk]

theorem Lib.update_of_lookup (m : Store) (nowc : Nat) (k : String) (ttl : Nat)
    (t : TyTag) (fres : Except String t.denote) (tdone : Nat) (instant : Nat) (d : Dyn)
    (hwf : WF m) (hlk : storeLookup m k = some (instant, d)) :
    Lib.update m nowc k ttl t fres tdone =
      if nowc < instant then
        (if h : d.tag = t then (m, .ok (h ▸ d.val)) else (m, .error (libUpdateMsg k t)))
      else Lib.updateMiss m (strHash k % m.numShards) k ttl t fres tdone := by
  rw [storeLookup] at hlk
  unfold Lib.update
  simp only [hwf.getShard_eq k, hlk]

theorem Lib.update_of_none (m : Store) (nowc : Nat) (k : String) (ttl : Nat)
    (t : TyTag) (fres : Except String t.denote) (tdone : Nat)
    (hwf : WF m) (hlk : storeLookup m k = none) :
    Lib.update m nowc k ttl t fres tdone =
      Lib.updateMiss m (strHash k % m.numShards) k ttl t fres tdone := by
  rw [storeLookup] at hlk
  unfold Lib.update
  simp only [hwf.getShard_eq k, hlk]

theorem Lib.updateMiss_ok (m : Store) (k : String) (ttl : Nat) (t : TyTag)
    (v : t.denote) (tdone : Nat) :
    Lib.updateMiss m (strHash k % m.numShards) k ttl t (.ok v) tdone =
      (setShard m k (alistInsert (shardOf m k) k (tdone + ttl, ⟨t, v⟩)), .ok v) := by
  unfold Lib.updateMiss setShard shardOf
  rfl

theorem Crude.update_atomic_eq (m : Store) (k : String) (ttl : Nat) (t : TyTag)
    (v : t.denote) (tdone : Nat) (hwf : WF m) :
    Crude.update_atomic m k ttl t (.ok v) tdone =
      (setShard m k (alistInsert (shardOf m k) k (tdone + ttl, ⟨t, v⟩)), .ok v) := by
  unfold Crude.update_atomic setShard shardOf
  simp only [hwf.getShard_eq k]

theorem Crude.update_atomic_err (m : Store) (k : String) (ttl : Nat) (t : TyTag)
    (e : String) (tdone : Nat) (hwf : WF m) :
    Crude.update_atomic m k ttl t (.error e) tdone = (m, .error e) := by
  unfold Crude.update_atomic
  simp only [hwf.getShard_eq k]

/-! ## Concrete stores used by witnesses and counterexamples -/

/-- An empty two-shard store, as built by `CrudeCache::new(2)`. -/
def emptyStore : Store := ShardedMap.new Entry 2

/-- `emptyStore` after `force_insert("h", 7usize, 100)` at instant 0: holds a
`usize` entry for key "h" expiring at instant 100. -/
def sampleStore : Store := (force_insert emptyStore 0 "h" TyTag.nat 7 100).1

/-- `emptyStore` after `force_insert("h", 7usize, 5)` at instant 0: holds a
`usize` entry for key "h" expiring at instant 5 (expired for reads past 5). -/
def expiredStore : Store := (force_insert emptyStore 0 "h" TyTag.nat 7 5).1

theorem emptyStore_wf : WF emptyStore := WF_new 2 (by decide)

theorem sampleStore_wf : WF sampleStore :=
  WF_insert emptyStore "h" (100, ⟨TyTag.nat, 7⟩) emptyStore_wf

theorem expiredStore_wf : WF expiredStore :=
  WF_insert emptyStore "h" (5, ⟨TyTag.nat, 7⟩) emptyStore_wf

theorem sampleStore_lookup : storeLookup sampleStore "h" = some (100, ⟨TyTag.nat, 7⟩) :=
  storeLookup_insert_self emptyStore "h" (100, ⟨TyTag.nat, 7⟩) emptyStore_wf

theorem expiredStore_lookup : storeLookup expiredStore "h" = some (5, ⟨TyTag.nat, 7⟩) :=
  storeLookup_insert_self emptyStore "h" (5, ⟨TyTag.nat, 7⟩) emptyStore_wf

theorem emptyStore_lookup : storeLookup emptyStore "h" = none := rfl

/-! ## Claim theorems -/

/-- Claim C5: for every state in which key `k` holds an unexpired entry of the
requested type, `get_or_else_update` (in both revisions) returns the cached
value, leaves the store unchanged, and its result is independent of the
compute callback's outcome `fres` — i.e. it never invokes the compute
function.  (`get` takes no compute callback at all.) -/
theorem c5_warm_key_no_compute (m : Store) (now : Nat) (k : String) (ttl : Nat)
    (t : TyTag) (v : t.denote) (instant : Nat) (hwf : WF m)
    (hlk : storeLookup m k = some (instant, ⟨t, v⟩)) (hfresh : now < instant) :
    ∀ (fres : Except String t.denote) (tdone now2 : Nat),
      Crude.get_or_else_update m now k ttl t fres tdone = (m, .ok v)
      ∧ Lib.get_or_else_update m now now2 k ttl t fres tdone = (m, .ok v) := by
  intro fres tdone now2
  have hc : Crude.get m now k t = (m, .ok (some v)) := by
    rw [crudeGet_of_lookup m now k t instant ⟨t, v⟩ hwf hlk]
    rw [dif_pos rfl, if_neg (Nat.not_lt.mpr (le_of_lt hfresh))]
  have hl : Lib.get m now k t = (m, .ok (some v)) := by
    rw [libGet_of_lookup m now k t instant ⟨t, v⟩ hwf hlk]
    rw [if_pos hfresh, dif_pos rfl]
  constructor
  · unfold Crude.get_or_else_update
    rw [hc]
  · unfold Lib.get_or_else_update
    rw [hl]

/-- Witness for C5 at a concrete input: on a store holding a fresh `usize`
entry `7` for "h" (expiry 100, read at 50), both revisions return `7` even
when the compute callback would panic. -/
theorem c5_witness :
    Crude.get_or_else_update sampleStore 50 "h" 10 TyTag.nat (.error "boom") 60
        = (sampleStore, .ok 7)
    ∧ Lib.get_or_else_update sampleStore 50 61 "h" 10 TyTag.nat (.error "boom") 60
        = (sampleStore, .ok 7) :=
  c5_warm_key_no_compute sampleStore 50 "h" 10 TyTag.nat 7 100 sampleStore_wf
    sampleStore_lookup (by decide) (.error "boom") 60 61

/-- Claim C1, counterexample: in the `crude_cache.rs` revision the code run
after the write lock is acquired (`update_atomic`) performs NO re-check.  On a
store holding a fresh entry `7` for "h" (expiry 100, lock held at instant 50),
it returns the compute result `5` (not the cached `7`), it propagates a panic
of the compute callback (so the callback IS invoked), and it overwrites the
fresh entry. -/
theorem c1_counterexample :
    storeLookup sampleStore "h" = some (100, ⟨TyTag.nat, 7⟩)
    ∧ (50 : Nat) < 100
    ∧ (Crude.update_atomic sampleStore "h" 10 TyTag.nat (.ok 5) 50).2 = .ok 5
    ∧ (Crude.update_atomic sampleStore "h" 10 TyTag.nat
        (.error "compute panicked") 50).2 = .error "compute panicked"
    ∧ storeLookup (Crude.update_atomic sampleStore "h" 10 TyTag.nat (.ok 5) 50).1 "h"
        = some (60, ⟨TyTag.nat, 5⟩) :=
  ⟨sampleStore_lookup, by decide, rfl, rfl, rfl⟩

/-- Claim C1 (amended): in the `lib.rs` revision, `update` re-checks the shard
under the write lock: for every state in which a fresh entry of the requested
type is present at the moment the write lock is held, it returns that entry's
value, writes nothing, and its result is independent of the compute callback's
outcome (the callback is never invoked).  The `crude_cache.rs` revision's
`update_atomic` has no such re-check (see the counterexample). -/
theorem c1_amended_lib_recheck (m : Store) (now2 : Nat) (k : String) (ttl : Nat)
    (t : TyTag) (v : t.denote) (instant : Nat) (hwf : WF m)
    (hlk : storeLookup m k = some (instant, ⟨t, v⟩)) (hfresh : now2 < instant) :
    ∀ (fres : Except String t.denote) (tdone : Nat),
      Lib.update m now2 k ttl t fres tdone = (m, .ok v) := by
  intro fres tdone
  rw [Lib.update_of_lookup m now2 k ttl t fres tdone instant ⟨t, v⟩ hwf hlk]
  rw [if_pos hfresh, dif_pos rfl]

/-- Witness for the amended C1 at a concrete input: `lib.rs` `update` on the
fresh entry for "h" returns the cached `7` even when the compute callback
would panic. -/
theorem c1_witness :
    Lib.update sampleStore 50 "h" 10 TyTag.nat (.error "boom") 60
        = (sampleStore, .ok 7) :=
  c1_amended_lib_recheck sampleStore 50 "h" 10 TyTag.nat 7 100 sampleStore_wf
    sampleStore_lookup (by decide) (.error "boom") 60

/-- Claim C2, counterexample: in the `crude_cache.rs` revision a read at
exactly `t0 + ttl` does NOT return absent.  After `force_insert("h", 7, 5)` at
instant 0, `Crude.get` at instant 5 (= t0 + ttl) returns `Some 7` (its expiry
comparison `instant < now` is strict). -/
theorem c2_counterexample :
    (Crude.get expiredStore 5 "h" TyTag.nat).2 = .ok (some 7)
    ∧ (Crude.get expiredStore 5 "h" TyTag.nat).2 ≠ .ok none := by
  constructor
  · rfl
  · intro h
    have h' : Except.ok (some (7 : Nat)) = (.ok none : Except String (Option Nat)) := h
    simp at h'

/-- Claim C2 (amended): after `force_insert(k, v, ttl)` at `t0`, the `lib.rs`
revision's `get` returns `v` at every read instant in `[t0, t0+ttl)` and
absent at every instant `>= t0+ttl` (absent at exactly `t0+ttl`), exactly as
the claim states; the `crude_cache.rs` revision's `get`, whose expiry test is
the strict `instant < now`, returns `v` on `[t0, t0+ttl]` — including exactly
`t0+ttl` — and absent only strictly after `t0+ttl`. -/
theorem c2_amended_ttl_window (m : Store) (t0 ttl rt : Nat) (k : String) (t : TyTag)
    (v : t.denote) (hwf : WF m) :
    ((rt < t0 + ttl →
        (Lib.get (force_insert m t0 k t v ttl).1 rt k t).2 = .ok (some v))
      ∧ (t0 + ttl ≤ rt →
        (Lib.get (force_insert m t0 k t v ttl).1 rt k t).2 = .ok none))
    ∧ ((rt ≤ t0 + ttl →
        (Crude.get (force_insert m t0 k t v ttl).1 rt k t).2 = .ok (some v))
      ∧ (t0 + ttl < rt →
        (Crude.get (force_insert m t0 k t v ttl).1 rt k t).2 = .ok none)) := by
  have hwf' : WF (force_insert m t0 k t v ttl).1 := WF_insert m k _ hwf
  have hlk : storeLookup (force_insert m t0 k t v ttl).1 k = some (t0 + ttl, ⟨t, v⟩) :=
    storeLookup_insert_self m k _ hwf
  refine ⟨⟨?_, ?_⟩, ?_, ?_⟩
  · intro hrt
    rw [libGet_of_lookup _ rt k t (t0 + ttl) ⟨t, v⟩ hwf' hlk]
    rw [if_pos hrt, dif_pos rfl]
  · intro hrt
    rw [libGet_of_lookup _ rt k t (t0 + ttl) ⟨t, v⟩ hwf' hlk]
    rw [if_neg (Nat.not_lt.mpr hrt)]
  · intro hrt
    rw [crudeGet_of_lookup _ rt k t (t0 + ttl) ⟨t, v⟩ hwf' hlk]
    rw [dif_pos rfl, if_neg (Nat.not_lt.mpr hrt)]
  · intro hrt
    rw [crudeGet_of_lookup _ rt k t (t0 + ttl) ⟨t, v⟩ hwf' hlk]
    rw [dif_pos rfl, if_pos hrt]

/-- Witness for the amended C2 at a concrete input: after insertion at 0 with
ttl 5, a read at exactly instant 5 is absent in the `lib.rs` revision and
present (`Some 7`) in the `crude_cache.rs` revision. -/
theorem c2_witness :
    (Lib.get (force_insert emptyStore 0 "h" TyTag.nat 7 5).1 5 "h" TyTag.nat).2 = .ok none
    ∧ (Crude.get (force_insert emptyStore 0 "h" TyTag.nat 7 5).1 5 "h" TyTag.nat).2
        = .ok (some 7) :=
  ⟨(c2_amended_ttl_window emptyStore 0 5 5 "h" TyTag.nat 7 emptyStore_wf).1.2 (by decide),
   (c2_amended_ttl_window emptyStore 0 5 5 "h" TyTag.nat 7 emptyStore_wf).2.1 (by decide)⟩

/-- Claim C3, counterexample: a present key whose stored type differs from the
requested one does NOT always fail fatally.  In the `lib.rs` revision, an
expired entry is treated as absent before any downcast: with a `usize` entry
for "h" expired at 5, a `get::<&str>` at instant 10 returns `None` and raises
no assertion failure for any message. -/
theorem c3_counterexample :
    storeLookup expiredStore "h" = some (5, ⟨TyTag.nat, 7⟩)
    ∧ TyTag.nat ≠ TyTag.str
    ∧ (Lib.get expiredStore 10 "h" TyTag.str).2 = .ok none
    ∧ ∀ e : String, (Lib.get expiredStore 10 "h" TyTag.str).2 ≠ .error e := by
  refine ⟨expiredStore_lookup, by decide, rfl, ?_⟩
  intro e h
  have h' : (.ok none : Except String (Option String)) = .error e := h
  cases h'

/-- Claim C3 (amended): for every state in which key `k` holds a FRESH
(unexpired) entry whose stored concrete type differs from the requested type,
`get` and `get_or_else_update` in both revisions fail fatally and
deterministically with the assertion message naming the key and the expected
type, and the failure is an error outcome, not an optional return.  (For an
expired mismatched entry the `lib.rs` revision instead returns absent — the
counterexample — while the `crude_cache.rs` revision still fails.) -/
theorem c3_amended_fresh_mismatch (m : Store) (now : Nat) (k : String) (t : TyTag)
    (ttl instant : Nat) (d : Dyn) (hwf : WF m)
    (hlk : storeLookup m k = some (instant, d)) (hne : d.tag ≠ t)
    (hfresh : now < instant) :
    (Lib.get m now k t).2 = .error (libGetMsg k t)
    ∧ (Crude.get m now k t).2 = .error (crudeGetMsg k t)
    ∧ (∀ (fres : Except String t.denote) (tdone now2 : Nat),
        Lib.get_or_else_update m now now2 k ttl t fres tdone
          = (m, .error (libGetMsg k t)))
    ∧ (∀ (fres : Except String t.denote) (tdone : Nat),
        Crude.get_or_else_update m now k ttl t fres tdone
          = (m, .error (crudeGetMsg k t))) := by
  have hl : Lib.get m now k t = (m, .error (libGetMsg k t)) := by
    rw [libGet_of_lookup m now k t instant d hwf hlk, if_pos hfresh, dif_neg hne]
  have hc : Crude.get m now k t = (m, .error (crudeGetMsg k t)) := by
    rw [crudeGet_of_lookup m now k t instant d hwf hlk, dif_neg hne]
  refine ⟨by rw [hl], by rw [hc], ?_, ?_⟩
  · intro fres tdone now2
    unfold Lib.get_or_else_update
    rw [hl]
  · intro fres tdone
    unfold Crude.get_or_else_update
    rw [hc]

/-- Witness for the amended C3 at a concrete input: requesting the fresh
`usize` entry for "h" as `&str` fails with the assertion message in both
revisions. -/
theorem c3_witness :
    (Lib.get sampleStore 50 "h" TyTag.str).2 = .error (libGetMsg "h" TyTag.str)
    ∧ (Crude.get sampleStore 50 "h" TyTag.str).2
        = .error (crudeGetMsg "h" TyTag.str) :=
  ⟨(c3_amended_fresh_mismatch sampleStore 50 "h" TyTag.str 10 100 ⟨TyTag.nat, 7⟩
      sampleStore_wf sampleStore_lookup (by decide) (by decide)).1,
   (c3_amended_fresh_mismatch sampleStore 50 "h" TyTag.str 10 100 ⟨TyTag.nat, 7⟩
      sampleStore_wf sampleStore_lookup (by decide) (by decide)).2.1⟩

/-- Claim C4: when the compute callback of `get_or_else_update` fails
(panics), the failure propagates unmodified to the caller and no entry is
written — the store component of the result is exactly the store from before
the compute step.  This covers every fill episode in both revisions: the
compute step itself (`update_atomic` on any state; `lib.rs` `update`'s
miss arm both when the key is absent and when a stale, expired entry is
still present, which that stale entry survives), and `get_or_else_update`
end to end on an absent key and on an expired entry. -/
theorem c4_compute_failure_propagates (m : Store) (k : String) (ttl : Nat)
    (t : TyTag) (e : String) (tdone now now2 : Nat) (hwf : WF m) :
    Crude.update_atomic m k ttl t (.error e) tdone = (m, .error e)
    ∧ (storeLookup m k = none →
        Lib.update m now2 k ttl t (.error e) tdone = (m, .error e))
    ∧ (∀ (instant : Nat) (d : Dyn),
        storeLookup m k = some (instant, d) → instant ≤ now2 →
          Lib.update m now2 k ttl t (.error e) tdone = (m, .error e))
    ∧ (storeLookup m k = none →
        Crude.get_or_else_update m now k ttl t (.error e) tdone = (m, .error e)
        ∧ Lib.get_or_else_update m now now2 k ttl t (.error e) tdone = (m, .error e))
    ∧ (∀ (instant : Nat) (d : Dyn),
        storeLookup m k = some (instant, d) → instant ≤ now → now ≤ now2 →
          Lib.get_or_else_update m now now2 k ttl t (.error e) tdone = (m, .error e))
    ∧ (∀ (instant : Nat) (v : t.denote),
        storeLookup m k = some (instant, ⟨t, v⟩) → instant < now →
          Crude.get_or_else_update m now k ttl t (.error e) tdone
            = (m, .error e)) := by
  refine ⟨Crude.update_atomic_err m k ttl t e tdone hwf, ?_, ?_, ?_, ?_, ?_⟩
  · intro hmiss
    rw [Lib.update_of_none m now2 k ttl t (.error e) tdone hwf hmiss]
    rfl
  · intro instant d hlk hle
    rw [Lib.update_of_lookup m now2 k ttl t (.error e) tdone instant d hwf hlk,
        if_neg (Nat.not_lt.mpr hle)]
    rfl
  · intro hmiss
    constructor
    · unfold Crude.get_or_else_update
      rw [crudeGet_of_none m now k t hwf hmiss]
      exact Crude.update_atomic_err m k ttl t e tdone hwf
    · unfold Lib.get_or_else_update
      rw [libGet_of_none m now k t hwf hmiss]
      show Lib.update m now2 k ttl t (.error e) tdone = (m, .error e)
      rw [Lib.update_of_none m now2 k ttl t (.error e) tdone hwf hmiss]
      rfl
  · intro instant d hlk hexp hle
    unfold Lib.get_or_else_update
    have hg : Lib.get m now k t = (m, .ok none) := by
      rw [libGet_of_lookup m now k t instant d hwf hlk,
          if_neg (Nat.not_lt.mpr hexp)]
    rw [hg]
    show Lib.update m now2 k ttl t (.error e) tdone = (m, .error e)
    rw [Lib.update_of_lookup m now2 k ttl t (.error e) tdone instant d hwf hlk,
        if_neg (Nat.not_lt.mpr (le_trans hexp hle))]
    rfl
  · intro instant v hlk hexp
    unfold Crude.get_or_else_update
    have hg : Crude.get m now k t = (m, .ok none) := by
      rw [crudeGet_of_lookup m now k t instant ⟨t, v⟩ hwf hlk, dif_pos rfl,
          if_pos hexp]
    rw [hg]
    show Crude.update_atomic m k ttl t (.error e) tdone = (m, .error e)
    exact Crude.update_atomic_err m k ttl t e tdone hwf

/-- Witness for C4 at concrete inputs: a panicking compute callback surfaces
as the same panic with the store unchanged, both when the key is absent
(empty store) and when a stale expired entry for "h" is still present (stale
`usize` entry expired at 5, read at 10) — in both revisions. -/
theorem c4_witness :
    Crude.get_or_else_update expiredStore 10 "h" 10 TyTag.nat (.error "boom") 12
        = (expiredStore, .error "boom")
    ∧ Lib.get_or_else_update expiredStore 10 11 "h" 10 TyTag.nat (.error "boom") 12
        = (expiredStore, .error "boom")
    ∧ Crude.get_or_else_update emptyStore 3 "h" 10 TyTag.nat (.error "boom") 5
        = (emptyStore, .error "boom")
    ∧ Lib.get_or_else_update emptyStore 3 4 "h" 10 TyTag.nat (.error "boom") 5
        = (emptyStore, .error "boom") :=
  ⟨(c4_compute_failure_propagates expiredStore "h" 10 TyTag.nat "boom" 12 10 11
      expiredStore_wf).2.2.2.2.2 5 7 expiredStore_lookup (by decide),
   (c4_compute_failure_propagates expiredStore "h" 10 TyTag.nat "boom" 12 10 11
      expiredStore_wf).2.2.2.2.1 5 ⟨TyTag.nat, 7⟩ expiredStore_lookup
      (by decide) (by decide),
   ((c4_compute_failure_propagates emptyStore "h" 10 TyTag.nat "boom" 5 3 4
      emptyStore_wf).2.2.2.1 emptyStore_lookup).1,
   ((c4_compute_failure_propagates emptyStore "h" 10 TyTag.nat "boom" 5 3 4
      emptyStore_wf).2.2.2.1 emptyStore_lookup).2⟩

/-- Claim C6: `remove(k)` returns `true` iff an entry for `k` existed
immediately before the call (live or expired — the raw stored entry, with no
expiry test), the entry is absent afterwards (a subsequent `get` returns
absent at any instant and any requested type), and removing an absent key is
the normal outcome `false`, not an error. -/
theorem c6_remove_iff_present (m : Store) (k : String) (hwf : WF m) :
    (Crude.remove m k).2 = .ok ((storeLookup m k).isSome)
    ∧ storeLookup (Crude.remove m k).1 k = none
    ∧ (∀ (now : Nat) (t : TyTag),
        (Crude.get (Crude.remove m k).1 now k t).2 = .ok none) := by
  unfold Crude.remove
  have hwf' : WF (ShardedMap.remove m k).1 := WF_remove m k hwf
  have hnone : storeLookup (ShardedMap.remove m k).1 k = none :=
    storeLookup_remove_self m k hwf
  refine ⟨?_, hnone, fun now t => by rw [crudeGet_of_none _ now k t hwf' hnone]⟩
  rw [ShardedMap.remove_eq m k hwf]
  show Except.ok (alistRemove (shardOf m k) k).2 = _
  rw [alistRemove_snd]
  rfl

/-- Witness for C6 at concrete inputs: removing the present "h" from
`sampleStore` reports `true`; removing it from the empty store reports
`false`. -/
theorem c6_witness :
    (Crude.remove sampleStore "h").2 = .ok true
    ∧ (Crude.remove emptyStore "h").2 = .ok false :=
  ⟨((c6_remove_iff_present sampleStore "h" sampleStore_wf).1).trans (by rfl),
   ((c6_remove_iff_present emptyStore "h" emptyStore_wf).1).trans (by rfl)⟩

/-- Claim C7: `get` is side-effect free in both revisions — the store
component of its result is the input store — and an entry observed as expired
is left untouched: it is still found by a raw lookup afterwards, the read
reports absent, and a subsequent `remove` of the key still reports `true`
(the entry was still present until that removal). -/
theorem c7_get_no_side_effect (m : Store) (now : Nat) (k : String) (t : TyTag)
    (hwf : WF m) :
    (Crude.get m now k t).1 = m ∧ (Lib.get m now k t).1 = m
    ∧ ∀ (instant : Nat) (d : Dyn),
        storeLookup m k = some (instant, d) → instant ≤ now →
          (Lib.get m now k t).2 = .ok none
          ∧ storeLookup (Lib.get m now k t).1 k = some (instant, d)
          ∧ (Crude.remove (Lib.get m now k t).1 k).2 = .ok true := by
  refine ⟨rfl, rfl, ?_⟩
  intro instant d hlk hexp
  refine ⟨?_, hlk, ?_⟩
  · rw [libGet_of_lookup m now k t instant d hwf hlk,
        if_neg (Nat.not_lt.mpr hexp)]
  · show (Crude.remove m k).2 = .ok true
    unfold Crude.remove
    rw [ShardedMap.remove_eq m k hwf]
    show Except.ok (alistRemove (shardOf m k) k).2 = _
    rw [alistRemove_snd]
    have h2 : alistLookup (shardOf m k) k = some (instant, d) := hlk
    rw [h2]
    rfl

/-- Witness for C7 at a concrete input: reading the expired entry for "h" at
instant 10 leaves the store unchanged, reports absent, and the entry is still
removable (remove returns `true`). -/
theorem c7_witness :
    (Crude.get expiredStore 10 "h" TyTag.nat).1 = expiredStore
    ∧ (Lib.get expiredStore 10 "h" TyTag.nat).2 = .ok none
    ∧ (Crude.remove (Lib.get expiredStore 10 "h" TyTag.nat).1 "h").2 = .ok true := by
  obtain ⟨h1, h2, h3⟩ :=
    c7_get_no_side_effect expiredStore 10 "h" TyTag.nat expiredStore_wf
  obtain ⟨a, b, c⟩ := h3 5 ⟨TyTag.nat, 7⟩ expiredStore_lookup (by decide)
  exact ⟨h1, a, c⟩

/-- Claim C8: shard routing is a pure deterministic function of the key and
the fixed shard count — any store with the same shard count (and a shard
vector covering it) routes the key to the same index — the index is strictly
below the shard count, and a single-key `insert` or `remove` touches exactly
the routed shard, leaving every other shard's contents unchanged. -/
theorem c8_routing_deterministic (m : Store) (k : String) (hwf : WF m) :
    m.getShard k = .ok (strHash k % m.numShards)
    ∧ strHash k % m.numShards < m.numShards
    ∧ (∀ m2 : Store, m2.numShards = m.numShards →
        m2.numShards ≤ m2.shards.length → m2.getShard k = m.getShard k)
    ∧ (∀ (v : Entry) (j : Nat), j ≠ strHash k % m.numShards →
        ((ShardedMap.insert m k v).1).shards.getD j [] = m.shards.getD j [])
    ∧ (∀ j : Nat, j ≠ strHash k % m.numShards →
        ((ShardedMap.remove m k).1).shards.getD j [] = m.shards.getD j []) := by
  refine ⟨hwf.getShard_eq k, Nat.mod_lt _ hwf.pos, ?_, ?_, ?_⟩
  · intro m2 hnum hlen2
    rw [getShard_wf m2 k (hnum ▸ hwf.pos) hlen2, hwf.getShard_eq k, hnum]
  · intro v j hj
    rw [ShardedMap.insert_eq m k v hwf]
    exact getD_set_ne m.shards (strHash k % m.numShards) j _ [] hj
  · intro j hj
    rw [ShardedMap.remove_eq m k hwf]
    exact getD_set_ne m.shards (strHash k % m.numShards) j _ [] hj

/-- Witness for C8 at a concrete input: on the two-shard `sampleStore`, key
"h" routes to index `strHash "h" % 2`, which is below the shard count. -/
theorem c8_witness :
    sampleStore.getShard "h" = .ok (strHash "h" % sampleStore.numShards)
    ∧ strHash "h" % sampleStore.numShards < sampleStore.numShards :=
  ⟨(c8_routing_deterministic sampleStore "h" sampleStore_wf).1,
   (c8_routing_deterministic sampleStore "h" sampleStore_wf).2.1⟩

/-- Claim C9 (implicit): in the `lib.rs` revision, `get` on an expired entry
returns `None` without performing the type check, so a mismatched type does
not fail; in the `crude_cache.rs` revision, `get` downcasts before checking
expiry, so a mismatched entry fails with the assertion message whatever its
expiry instant — in particular even when expired. -/
theorem c9_expired_entry_type_check (m : Store) (now : Nat) (k : String)
    (t : TyTag) (instant : Nat) (d : Dyn) (hwf : WF m)
    (hlk : storeLookup m k = some (instant, d)) (hne : d.tag ≠ t) :
    (instant ≤ now → (Lib.get m now k t).2 = .ok none)
    ∧ (Crude.get m now k t).2 = .error (crudeGetMsg k t) := by
  constructor
  · intro hexp
    rw [libGet_of_lookup m now k t instant d hwf hlk,
        if_neg (Nat.not_lt.mpr hexp)]
  · rw [crudeGet_of_lookup m now k t instant d hwf hlk, dif_neg hne]

/-- Witness for C9 at a concrete input: the `usize` entry for "h", expired at
5 and read at 10 as `&str`, yields `None` in the `lib.rs` revision and the
fatal assertion in the `crude_cache.rs` revision. -/
theorem c9_witness :
    (Lib.get expiredStore 10 "h" TyTag.str).2 = .ok none
    ∧ (Crude.get expiredStore 10 "h" TyTag.str).2
        = .error (crudeGetMsg "h" TyTag.str) :=
  ⟨(c9_expired_entry_type_check expiredStore 10 "h" TyTag.str 5 ⟨TyTag.nat, 7⟩
      expiredStore_wf expiredStore_lookup (by decide)).1 (by decide),
   (c9_expired_entry_type_check expiredStore 10 "h" TyTag.str 5 ⟨TyTag.nat, 7⟩
      expiredStore_wf expiredStore_lookup (by decide)).2⟩

/-- Claim C10 (implicit): `ShardedMap::new(0)` constructs without any
validation (a store with shard count 0 and no shards), and every subsequent
keyed operation — `get`, `force_insert`, `remove`, `get_or_else_update`, in
either revision — fails with the modulo-by-zero panic raised while routing
the key, leaving the store unchanged. -/
theorem c10_zero_shard_count (k : String) (now now2 ttl tdone : Nat) (t : TyTag)
    (v : t.denote) (fres : Except String t.denote) :
    (ShardedMap.new Entry 0).numShards = 0
    ∧ (ShardedMap.new Entry 0).shards = []
    ∧ (Crude.get (ShardedMap.new Entry 0) now k t).2 = .error divZeroMsg
    ∧ (Lib.get (ShardedMap.new Entry 0) now k t).2 = .error divZeroMsg
    ∧ force_insert (ShardedMap.new Entry 0) now k t v ttl
        = (ShardedMap.new Entry 0, .error divZeroMsg)
    ∧ Crude.remove (ShardedMap.new Entry 0) k
        = (ShardedMap.new Entry 0, .error divZeroMsg)
    ∧ Crude.get_or_else_update (ShardedMap.new Entry 0) now k ttl t fres tdone
        = (ShardedMap.new Entry 0, .error divZeroMsg)
    ∧ Lib.get_or_else_update (ShardedMap.new Entry 0) now now2 k ttl t fres tdone
        = (ShardedMap.new Entry 0, .error divZeroMsg) :=
  ⟨rfl, rfl, rfl, rfl, rfl, rfl, rfl, rfl⟩
